import Mathlib

/-
Verification of the reference-repair, duplicate-pruning, styling and
process-wrapper routines of modifyPPTXGenAI.py, against the repository
specification. The Python functions are shallowly embedded: the file system is
a list of existing paths (or media-directory entries), XML documents are lists
of the elements the code inspects, external processes are functions from the
input to their captured result, and Python exceptions are Except values.
-/

set_option maxRecDepth 8000

namespace PPTXGenAI

/-- Result of a finished external process: exit code and the captured
stdout and stderr streams (already decoded). -/
structure ProcResult where
  returncode : Int
  stdout : String
  stderr : String
deriving DecidableEq, Repr

/-- Whitespace characters removed by str.strip() at both ends of a string
(the ASCII members of the whitespace class; the inputs of interest here are
short ASCII markers). -/
def isPySpace (c : Char) : Bool :=
  c == ' ' || c == '\t' || c == '\n' || c == '\r' || c == '\x0b' || c == '\x0c'

/-- Python str.strip(): drop whitespace from both ends. -/
def pyStrip (s : String) : String :=
  String.mk (((s.data.dropWhile isPySpace).reverse.dropWhile isPySpace).reverse)

/-- The fixed non_translatable_chars list of ascii_to_braille. -/
def nonTranslatableChars : List String :=
  ["â–ª", " ", "A.", "B.", "C.", "D.", "E."]

/-- The guard of ascii_to_braille: text.strip() is truthy (non-empty) and
text.strip() is a member of non_translatable_chars. -/
def isNonTranslatable (text : String) : Bool :=
  !(pyStrip text == "") && nonTranslatableChars.contains (pyStrip text)

/-- The tail of ascii_to_braille: a non-zero exit of lou_translate raises an
exception carrying the captured stderr, otherwise the decoded stdout is
returned. -/
def runTranslator (r : ProcResult) : Except String String :=
  if r.returncode != 0 then
    Except.error ("lou_translate failed: " ++ r.stderr)
  else
    Except.ok r.stdout

/-- Shallow embedding of ascii_to_braille. The external lou_translate process
is modelled as a function from the text written to its stdin to the process
result; the guard short-circuits without consulting it. -/
def ascii_to_braille (translator : String → ProcResult) (text : String) :
    Except String String :=
  if isNonTranslatable text then Except.ok text
  else runTranslator (translator text)

/-- Shallow embedding of convert_pptx_to_pdf. inputExists models
os.path.exists(pptx_file); conv models the subprocess.run call on libreoffice
(ok, or a raised exception carrying a message). The result is the log line the
function prints, or the uncaught FileNotFoundError. -/
def convert_pptx_to_pdf (inputExists : Bool) (conv : Except String Unit) :
    Except String String :=
  if !inputExists then
    Except.error "FileNotFoundError: The specified PPTX file does not exist"
  else
    match conv with
    | Except.ok _ => Except.ok "File converted successfully."
    | Except.error e => Except.ok ("An error occurred during file conversion: " ++ e)

/-- One entry of the media directory listing: its path, whether
os.path.isfile holds for it, and the SHA-1 hash of its contents (hashes are
opaque strings here, hash_file is a collaborator). -/
structure MediaEntry where
  path : String
  isFile : Bool
  hash : String
deriving DecidableEq, Repr

/-- Paths of the regular files of the listing whose hash is h, in listing
order: the value file_hashes[h] built by remove_repetitive_images. -/
def groupPaths (entries : List MediaEntry) (h : String) : List String :=
  (entries.filter (fun e => e.isFile && e.hash == h)).map (fun e => e.path)

/-- Append a key to a key list unless already present: the effect of a
dict insertion on the iteration order of its keys. -/
def insertKey (ks : List String) (k : String) : List String :=
  if ks.contains k then ks else ks ++ [k]

/-- The hash keys of file_hashes in first-seen order (Python dicts iterate in
insertion order). -/
def fileHashKeys (entries : List MediaEntry) : List String :=
  entries.foldl (fun ks e => if e.isFile then insertKey ks e.hash else ks) []

/-- The count hash_counts[h]. In the source hash_counts[h] and
len(file_hashes[h]) are incremented together for exactly the regular files, so
the count equals the length of the group. -/
def hashCount (entries : List MediaEntry) (h : String) : Nat :=
  (groupPaths entries h).length

/-- The comparison hash_counts[file_hash] > 0.8 * num_slides in exact
arithmetic: count > 0.8 * n iff 5 * count > 4 * n over the integers. For the
double-precision product 0.8 * n compared against an integer count this agrees
with the exact comparison for every realistic n: the rounding error of the
product is many orders of magnitude below the distance from 0.8 * n to the
nearest integer when 5 does not divide n, and when 5 divides n the product
rounds to exactly 4 * n / 5 (for n = 10 the product is exactly 8.0). -/
def overThreshold (numSlides count : Nat) : Bool :=
  decide (4 * numSlides < 5 * count)

/-- Shallow embedding of the deletion loop of remove_repetitive_images: the
hash groups are computed from the initial listing; then, for each hash group
in dict order, if its count exceeds the threshold every file of the group is
removed from the directory with os.remove. Returns the surviving entries. -/
def remove_repetitive_images (numSlides : Nat) (entries : List MediaEntry) :
    List MediaEntry :=
  (fileHashKeys entries).foldl
    (fun fs h =>
      if overThreshold numSlides (hashCount entries h) then
        fs.filter (fun e => !((groupPaths entries h).contains e.path))
      else fs)
    entries

/-- The survival condition of one listing entry under the whole deletion
loop: for every over-threshold hash group, the entry path avoids the group. -/
def survivesAll (numSlides : Nat) (entries : List MediaEntry) (ks : List String)
    (e : MediaEntry) : Bool :=
  ks.all (fun h => !(overThreshold numSlides (hashCount entries h)) ||
    !((groupPaths entries h).contains e.path))

/-- A Relationship element of a slide .rels document, with its Id, Type and
Target attributes (Type is a Lean keyword, hence the primed field name). -/
structure Relationship where
  Id : String
  Type' : String
  Target : String
deriving DecidableEq, Repr

/-- Python str.lstrip("/"): drop leading slash characters. -/
def lstripSlash (s : List Char) : List Char :=
  s.dropWhile (fun c => c == '/')

/-- Python str.replace("../", "") with an empty replacement: a single
left-to-right pass removing each occurrence of the pattern; the emitted
characters are not rescanned. -/
def stripDotDotSlash : List Char → List Char
  | '.' :: '.' :: '/' :: rest => stripDotDotSlash rest
  | c :: rest => c :: stripDotDotSlash rest
  | [] => []

/-- Resolution of a relationship Target exactly as on line 240 of the source:
os.path.join("temp_pptx", "ppt", target.lstrip("/")).replace("../", "").
After lstrip the third join component never starts with a separator, so the
join is plain concatenation with "/". -/
def resolveTarget (target : String) : String :=
  String.mk (stripDotDotSlash ("temp_pptx/ppt/".data ++ lstripSlash target.data))

/-- Substring containment over character lists. -/
def listHasSub (pat s : List Char) : Bool :=
  s.tails.any (fun t => pat.isPrefixOf t)

/-- The Python membership test "image" in relationship.attrib["Type"]. -/
def typeIsImage (ty : String) : Bool :=
  listHasSub "image".data ty.data

/-- A relationship is removed when its type mentions image and its resolved
target is not an existing path; files lists the paths that exist on disk. -/
def relBroken (files : List String) (r : Relationship) : Bool :=
  typeIsImage r.Type' && !(files.contains (resolveTarget r.Target))

/-- The removed_ids list accumulated by the relationship loop of clean_pptx. -/
def removedIds (files : List String) (rels : List Relationship) : List String :=
  (rels.filter (relBroken files)).map (fun r => r.Id)

/-- The relationship document after the loop: broken image relationships have
been removed from the root element, in place, preserving order. -/
def repairRels (files : List String) (rels : List Relationship) :
    List Relationship :=
  rels.filter (fun r => !(relBroken files r))

/-- A p:pic element of a slide document; embed is the r:embed attribute of its
a:blip descendant, none when the pic has no blip (the source skips those). -/
structure Pic where
  embed : Option String
deriving DecidableEq, Repr

/-- Whether the slide loop of clean_pptx tries to delete this pic: it has a
blip whose embed id is in the removed list. -/
def picBroken (removed : List String) (p : Pic) : Bool :=
  match p.embed with
  | some e => removed.contains e
  | none => false

/-- One slide of the package: the Relationship elements of its .rels document
and the p:pic elements of its slide document. -/
structure SlidePair where
  rels : List Relationship
  pics : List Pic
deriving DecidableEq, Repr

/-- Per-slide body of the clean_pptx repair loop. The source removes broken
image relationships from the .rels document, then calls pic.getparent() for
every pic whose embed id was removed; xml.etree.ElementTree elements have no
getparent method (that is lxml API), so the first such pic raises
AttributeError and aborts clean_pptx. When no pic matches a removed id the
slide document is written back as parsed. -/
def repairSlide (files : List String) (sp : SlidePair) : Except String SlidePair :=
  if sp.pics.any (picBroken (removedIds files sp.rels)) then
    Except.error "AttributeError: Element object has no attribute getparent"
  else
    Except.ok { rels := repairRels files sp.rels, pics := sp.pics }

/-- The clean_pptx repair loop over every slide of the package; a raised
exception aborts the whole run. The on-disk file set is unchanged by the loop
(no file is created or deleted between slides). -/
def repairPackage (files : List String) : List SlidePair → Except String (List SlidePair)
  | [] => Except.ok []
  | sp :: rest =>
    match repairSlide files sp with
    | Except.error e => Except.error e
    | Except.ok sp2 =>
      match repairPackage files rest with
      | Except.error e => Except.error e
      | Except.ok rest2 => Except.ok (sp2 :: rest2)

/-- A text run together with the font attributes the source assigns. none
models an attribute the run inherits rather than sets. -/
structure Run where
  text : String
  fontName : Option String
  space : Option Nat
  italic : Option Bool
  color : Option (Nat × Nat × Nat)
  size : Option Nat
deriving DecidableEq, Repr

/-- A paragraph: its runs and its line_spacing attribute. -/
structure Paragraph where
  runs : List Run
  lineSpacing : Option ℚ
deriving DecidableEq, Repr

/-- A table cell; cell.text_frame.paragraphs is its paragraph list. -/
structure TableCell where
  paragraphs : List Paragraph
deriving DecidableEq, Repr

/-- A shape as the source discriminates them: has_text_frame, has_table,
shape_type == 6 (a group holding child shapes), or anything else; the payload
of other records its shape_type so distinct shapes stay distinguishable. -/
inductive Shape : Type where
  | textFrame (paragraphs : List Paragraph)
  | table (rows : List (List TableCell))
  | group (shapes : List Shape)
  | other (shapeType : Nat)

/-- The run-level assignments of modify_presentation_font: font name, fixed
letter spacing Pt(spacing_size), non-italic, black color, and the size only
when the interactive confirmation was answered yes (changeSize). -/
def styleRunFont (fontName : String) (fontSize spacing : Nat) (changeSize : Bool)
    (r : Run) : Run :=
  { r with
    fontName := some fontName
    space := some spacing
    italic := some false
    color := some (0, 0, 0)
    size := if changeSize then some fontSize else r.size }

/-- modify_presentation_font on one paragraph: every run is styled. -/
def styleParaFont (fontName : String) (fontSize spacing : Nat) (changeSize : Bool)
    (p : Paragraph) : Paragraph :=
  { p with runs := p.runs.map (styleRunFont fontName fontSize spacing changeSize) }

/-- The font pass of modify_presentation_font on one shape. The explicit-stack
loop of the source pops each shape once, styles text frames and table cells,
pushes the children of a group, and skips every other shape; its in-place
effect on a shape tree is this map. -/
def modify_font_shape (fontName : String) (fontSize spacing : Nat)
    (changeSize : Bool) : Shape → Shape
  | Shape.textFrame ps =>
      Shape.textFrame (ps.map (styleParaFont fontName fontSize spacing changeSize))
  | Shape.table rows =>
      Shape.table (rows.map (fun row => row.map (fun c =>
        TableCell.mk (c.paragraphs.map (styleParaFont fontName fontSize spacing changeSize)))))
  | Shape.group ss =>
      Shape.group (ss.attach.map (fun x =>
        modify_font_shape fontName fontSize spacing changeSize x.1))
  | Shape.other t => Shape.other t
termination_by s => sizeOf s
decreasing_by
  simp only [Shape.group.sizeOf_spec]
  have := List.sizeOf_lt_of_mem x.2
  omega

/-- modify_presentation_spacing on one paragraph. -/
def styleParaSpacing (v : ℚ) (p : Paragraph) : Paragraph :=
  { p with lineSpacing := some v }

/-- The line-spacing pass of modify_presentation_spacing on one shape; same
traversal as the font pass. -/
def modify_spacing_shape (v : ℚ) : Shape → Shape
  | Shape.textFrame ps => Shape.textFrame (ps.map (styleParaSpacing v))
  | Shape.table rows =>
      Shape.table (rows.map (fun row => row.map (fun c =>
        TableCell.mk (c.paragraphs.map (styleParaSpacing v)))))
  | Shape.group ss => Shape.group (ss.attach.map (fun x => modify_spacing_shape v x.1))
  | Shape.other t => Shape.other t
termination_by s => sizeOf s
decreasing_by
  simp only [Shape.group.sizeOf_spec]
  have := List.sizeOf_lt_of_mem x.2
  omega

/-- All text runs held by a shape, through text frames, table cells and
nested groups: exactly the runs the two traversals visit. -/
def runsOfShape : Shape → List Run
  | Shape.textFrame ps => (ps.map (fun p => p.runs)).flatten
  | Shape.table rows =>
      (rows.map (fun row =>
        (row.map (fun c => (c.paragraphs.map (fun p => p.runs)).flatten)).flatten)).flatten
  | Shape.group ss => (ss.attach.map (fun x => runsOfShape x.1)).flatten
  | Shape.other _ => []
termination_by s => sizeOf s
decreasing_by
  simp only [Shape.group.sizeOf_spec]
  have := List.sizeOf_lt_of_mem x.2
  omega

/-- Whether a shape is of a kind outside text frame, table and group. -/
def isOtherShape : Shape → Bool
  | Shape.other _ => true
  | _ => false

/-- t occurs in s: either t is s itself, or t occurs in a child of a group,
through arbitrarily many nesting levels. -/
inductive SubShape : Shape → Shape → Prop where
  | refl (s : Shape) : SubShape s s
  | group {t s : Shape} {ss : List Shape} :
      s ∈ ss → SubShape t s → SubShape t (Shape.group ss)

/-- An image relationship whose target file exists in the media directory. -/
def demoGoodRel : Relationship :=
  { Id := "rId1"
    Type' := "http://schemas.openxmlformats.org/officeDocument/2006/relationships/image"
    Target := "../media/image1.png" }

/-- An image relationship whose target file is missing from the media
directory. -/
def demoBrokenRel : Relationship :=
  { Id := "rId2"
    Type' := "http://schemas.openxmlformats.org/officeDocument/2006/relationships/image"
    Target := "../media/image9.png" }

/-- The existing files of a small extracted package: one media file. -/
def demoFiles : List String := ["temp_pptx/ppt/media/image1.png"]

/-- A slide whose only image relationship resolves to an existing file. -/
def demoGoodSlide : SlidePair :=
  { rels := [demoGoodRel], pics := [] }

/-- A slide with a broken image relationship and a picture element embedding
it: the input that exercises the pic-removal branch of clean_pptx. -/
def demoBrokenSlide : SlidePair :=
  { rels := [demoBrokenRel], pics := [{ embed := some "rId2" }] }

/-- A media listing for ten slides: one hash on nine files, another on two. -/
def demoMedia : List MediaEntry :=
  [ { path := "m/a1.png", isFile := true, hash := "haaa" }
  , { path := "m/a2.png", isFile := true, hash := "haaa" }
  , { path := "m/a3.png", isFile := true, hash := "haaa" }
  , { path := "m/a4.png", isFile := true, hash := "haaa" }
  , { path := "m/a5.png", isFile := true, hash := "haaa" }
  , { path := "m/a6.png", isFile := true, hash := "haaa" }
  , { path := "m/a7.png", isFile := true, hash := "haaa" }
  , { path := "m/a8.png", isFile := true, hash := "haaa" }
  , { path := "m/a9.png", isFile := true, hash := "haaa" }
  , { path := "m/b1.png", isFile := true, hash := "hbbb" }
  , { path := "m/b2.png", isFile := true, hash := "hbbb" } ]

/-- The first of the nine files sharing the repeated hash. -/
def demoA1 : MediaEntry :=
  { path := "m/a1.png", isFile := true, hash := "haaa" }

/-- The first of the two files sharing the rare hash. -/
def demoB1 : MediaEntry :=
  { path := "m/b1.png", isFile := true, hash := "hbbb" }

/-- A single regular media file. -/
def demoLoneFile : MediaEntry :=
  { path := "m/only.png", isFile := true, hash := "honly" }

/-- A second regular media file with a distinct path and hash. -/
def demoLoneFile2 : MediaEntry :=
  { path := "m/second.png", isFile := true, hash := "hsecond" }

/-- A translator stand-in that always fails with exit code 1 and the message
boom on stderr. -/
def demoFailTr : String → ProcResult :=
  fun _ => { returncode := 1, stdout := "", stderr := "boom" }

/-- A translator stand-in that always succeeds, writing braille to stdout. -/
def demoOkTr : String → ProcResult :=
  fun _ => { returncode := 0, stdout := "braille-out", stderr := "" }

/-- A concrete run with every attribute set against the normalized style. -/
def demoRun : Run :=
  { text := "Hello"
    fontName := some "Comic Sans"
    space := some 3
    italic := some true
    color := some (12, 34, 56)
    size := some 99 }

/-- A text-frame shape holding the one demo run. -/
def demoTFShape : Shape :=
  Shape.textFrame [{ runs := [demoRun], lineSpacing := none }]

/-- A picture-like shape (shape_type 13) nested two groups deep. -/
def demoOtherShape : Shape := Shape.other 13

/-- A group nesting another group around the picture-like shape. -/
def demoNestedGroup : Shape :=
  Shape.group [Shape.group [demoOtherShape], demoTFShape]

theorem map_attach_eq {α β : Type _} (l : List α) (f : α → β) :
    l.attach.map (fun x => f x.1) = l.map f := by
  rw [List.map_attach]
  exact List.pmap_eq_map _ _ _ _

/-- Claim C6: for inputs that reach the translator, ascii_to_braille raises an
exception carrying the captured stderr exactly when the process exits with a
non-zero status, and returns the decoded stdout on a zero status. -/
theorem ascii_to_braille_error_iff (translator : String → ProcResult)
    (text : String) (h : isNonTranslatable text = false) :
    ((∃ e, ascii_to_braille translator text = Except.error e) ↔
      (translator text).returncode ≠ 0) ∧
    ((translator text).returncode ≠ 0 →
      ascii_to_braille translator text =
        Except.error ("lou_translate failed: " ++ (translator text).stderr)) ∧
    ((translator text).returncode = 0 →
      ascii_to_braille translator text = Except.ok (translator text).stdout) := by
  by_cases hrc : (translator text).returncode = 0
  · simp [ascii_to_braille, runTranslator, h, hrc]
  · simp [ascii_to_braille, runTranslator, h, hrc]

/-- Witness for C6: a concrete failing translator on an ordinary input. -/
theorem ascii_to_braille_error_iff_witness :
    ascii_to_braille demoFailTr "hello" =
      Except.error ("lou_translate failed: " ++ "boom") :=
  (ascii_to_braille_error_iff demoFailTr "hello" (by decide)).2.1 (by decide)

/-- Claim C7: when the input file exists, convert_pptx_to_pdf catches any
failure of the conversion step and only logs it: the result is an ordinary
return for every outcome of the conversion process, never a raised error. -/
theorem convert_pptx_to_pdf_never_raises (conv : Except String Unit) :
    ∃ msg, convert_pptx_to_pdf true conv = Except.ok msg := by
  cases conv with
  | ok u => exact ⟨_, rfl⟩
  | error e => exact ⟨_, rfl⟩

/-- Claim C10: an input whose stripped form is non-empty and in the fixed
non-translatable list is returned unchanged and the translator is never
consulted (the result is the same for every translator); every other input is
passed to the translator. -/
theorem ascii_to_braille_nontranslatable (translator : String → ProcResult)
    (text : String) :
    (isNonTranslatable text = true →
      ascii_to_braille translator text = Except.ok text ∧
      ∀ translator2, ascii_to_braille translator2 text =
        ascii_to_braille translator text) ∧
    (isNonTranslatable text = false →
      ascii_to_braille translator text = runTranslator (translator text)) := by
  refine ⟨fun h => ⟨?_, fun tr2 => ?_⟩, fun h => ?_⟩
  · simp [ascii_to_braille, h]
  · simp [ascii_to_braille, h]
  · simp [ascii_to_braille, h]

/-- Witness for C10: the marker A. is returned unchanged even under a failing
translator, while hello is handed to the translator. -/
theorem ascii_to_braille_nontranslatable_witness :
    ascii_to_braille demoFailTr "A." = Except.ok "A." ∧
    ascii_to_braille demoFailTr "hello" = runTranslator (demoFailTr "hello") :=
  ⟨((ascii_to_braille_nontranslatable demoFailTr "A.").1 (by decide)).1,
    (ascii_to_braille_nontranslatable demoFailTr "hello").2 (by decide)⟩

/-- Claim C2 (code bug): on a package with a slide that has a broken image
relationship embedded by a picture element, the repair loop raises
AttributeError instead of removing the picture, because the source calls the
lxml-only method getparent on xml.etree.ElementTree elements; clean_pptx
aborts. Evaluation of the embedded code at the failing input. -/
theorem clean_pptx_pic_removal_raises :
    repairPackage demoFiles [demoBrokenSlide] =
      Except.error "AttributeError: Element object has no attribute getparent" :=
  rfl

theorem mem_repairRels {files : List String} {rels : List Relationship}
    {r : Relationship} :
    r ∈ repairRels files rels ↔ r ∈ rels ∧ relBroken files r = false := by
  simp [repairRels, List.mem_filter]

theorem resolve_mem_of_not_broken {files : List String} {r : Relationship}
    (himg : typeIsImage r.Type' = true) (hnb : relBroken files r = false) :
    resolveTarget r.Target ∈ files := by
  unfold relBroken at hnb
  rw [himg] at hnb
  simp at hnb
  exact hnb

theorem repairSlide_ok_iff {files : List String} {sp sp2 : SlidePair} :
    repairSlide files sp = Except.ok sp2 ↔
      sp.pics.any (picBroken (removedIds files sp.rels)) = false ∧
      sp2 = { rels := repairRels files sp.rels, pics := sp.pics } := by
  unfold repairSlide
  by_cases h : sp.pics.any (picBroken (removedIds files sp.rels)) = true
  · simp [h]
  · rw [Bool.not_eq_true] at h
    simp [h, eq_comm]

theorem mem_of_repairPackage_ok {files : List String} :
    ∀ {pkg pkg2 : List SlidePair}, repairPackage files pkg = Except.ok pkg2 →
      ∀ sp2 ∈ pkg2, ∃ sp ∈ pkg, repairSlide files sp = Except.ok sp2 := by
  intro pkg
  induction pkg with
  | nil =>
    intro pkg2 h sp2 hsp2
    unfold repairPackage at h
    simp at h
    subst h
    exact absurd hsp2 (List.not_mem_nil sp2)
  | cons sp rest ih =>
    intro pkg2 h sp2 hsp2
    unfold repairPackage at h
    cases h1 : repairSlide files sp with
    | error e => rw [h1] at h; exact absurd h (by simp)
    | ok spA =>
      rw [h1] at h
      cases h2 : repairPackage files rest with
      | error e => rw [h2] at h; exact absurd h (by simp)
      | ok restA =>
        rw [h2] at h
        simp at h
        subst h
        rcases List.mem_cons.mp hsp2 with rfl | hsp2b
        · exact ⟨sp, List.mem_cons_self sp rest, h1⟩
        · obtain ⟨sp0, hsp0, hok⟩ := ih h2 sp2 hsp2b
          exact ⟨sp0, List.mem_cons_of_mem sp hsp0, hok⟩

/-- Claim C1: after a clean_pptx repair loop that completes without error,
every image relationship remaining in any relationship document of the
package resolves, with the normalization of the source, to a path among the
media files existing on disk. -/
theorem clean_pptx_image_rels_resolve (files : List String)
    (pkg pkg2 : List SlidePair) (h : repairPackage files pkg = Except.ok pkg2) :
    ∀ sp ∈ pkg2, ∀ r ∈ sp.rels, typeIsImage r.Type' = true →
      resolveTarget r.Target ∈ files := by
  intro sp hsp r hr himg
  obtain ⟨sp0, _, hok⟩ := mem_of_repairPackage_ok h sp hsp
  obtain ⟨_, hdef⟩ := repairSlide_ok_iff.mp hok
  subst hdef
  exact resolve_mem_of_not_broken himg (mem_repairRels.mp hr).2

/-- Witness for C1: the demo package holding one intact image relationship. -/
theorem clean_pptx_image_rels_resolve_witness :
    resolveTarget demoGoodRel.Target ∈ demoFiles :=
  clean_pptx_image_rels_resolve demoFiles [demoGoodSlide] [demoGoodSlide]
    rfl demoGoodSlide (by decide) demoGoodRel (by decide) (by decide)

theorem removedIds_repairRels (files : List String) (rels : List Relationship) :
    removedIds files (repairRels files rels) = [] := by
  unfold removedIds repairRels
  rw [List.filter_filter]
  simp

theorem repairRels_idem (files : List String) (rels : List Relationship) :
    repairRels files (repairRels files rels) = repairRels files rels := by
  unfold repairRels
  rw [List.filter_filter]
  simp

theorem picBroken_nil (p : Pic) : picBroken [] p = false := by
  cases hp : p.embed <;> simp [picBroken, hp]

theorem repairSlide_of_repaired {files : List String} {sp sp2 : SlidePair}
    (h : repairSlide files sp = Except.ok sp2) :
    repairSlide files sp2 = Except.ok sp2 := by
  obtain ⟨_, hdef⟩ := repairSlide_ok_iff.mp h
  subst hdef
  apply repairSlide_ok_iff.mpr
  refine ⟨?_, ?_⟩
  · rw [removedIds_repairRels]
    rw [List.any_eq_false]
    intro p _
    simp [picBroken_nil]
  · simp [repairRels_idem]

theorem repairPackage_ok_of_all {files : List String} :
    ∀ {pkg : List SlidePair}, (∀ sp ∈ pkg, repairSlide files sp = Except.ok sp) →
      repairPackage files pkg = Except.ok pkg := by
  intro pkg
  induction pkg with
  | nil => intro _; rfl
  | cons sp rest ih =>
    intro h
    have h1 := h sp (List.mem_cons_self sp rest)
    have h2 := ih (fun x hx => h x (List.mem_cons_of_mem sp hx))
    unfold repairPackage
    rw [h1, h2]

/-- Claim C3: the repair pass is idempotent. After a run of the repair loop
that completes without error, every slide of the repaired package yields an
empty removed_ids list, and a second run of the loop returns the package
unchanged (zero relationship entries and zero picture elements removed). -/
theorem clean_pptx_repair_idempotent (files : List String)
    (pkg pkg2 : List SlidePair) (h : repairPackage files pkg = Except.ok pkg2) :
    (∀ sp ∈ pkg2, removedIds files sp.rels = []) ∧
      repairPackage files pkg2 = Except.ok pkg2 := by
  have hall : ∀ sp ∈ pkg2, repairSlide files sp = Except.ok sp := by
    intro sp hsp
    obtain ⟨sp0, _, hok⟩ := mem_of_repairPackage_ok h sp hsp
    exact repairSlide_of_repaired hok
  refine ⟨?_, repairPackage_ok_of_all hall⟩
  intro sp hsp
  obtain ⟨sp0, _, hok⟩ := mem_of_repairPackage_ok h sp hsp
  obtain ⟨_, hdef⟩ := repairSlide_ok_iff.mp hok
  subst hdef
  exact removedIds_repairRels files sp0.rels

/-- Witness for C3 on the demo package. -/
theorem clean_pptx_repair_idempotent_witness :
    removedIds demoFiles demoGoodSlide.rels = [] ∧
      repairPackage demoFiles [demoGoodSlide] = Except.ok [demoGoodSlide] :=
  ⟨(clean_pptx_repair_idempotent demoFiles [demoGoodSlide] [demoGoodSlide] rfl).1
      demoGoodSlide (by decide),
    (clean_pptx_repair_idempotent demoFiles [demoGoodSlide] [demoGoodSlide] rfl).2⟩

theorem prune_step_eq_filter (N : Nat) (entries : List MediaEntry) (h : String)
    (fs : List MediaEntry) :
    (if overThreshold N (hashCount entries h) then
        fs.filter (fun e => !((groupPaths entries h).contains e.path))
      else fs) =
      fs.filter (fun e => !(overThreshold N (hashCount entries h)) ||
        !((groupPaths entries h).contains e.path)) := by
  by_cases hov : overThreshold N (hashCount entries h) = true
  · simp [hov]
  · rw [Bool.not_eq_true] at hov
    simp [hov]

theorem prune_foldl_eq_filter (N : Nat) (entries : List MediaEntry) :
    ∀ (ks : List String) (fs : List MediaEntry),
      ks.foldl (fun fs h =>
          if overThreshold N (hashCount entries h) then
            fs.filter (fun e => !((groupPaths entries h).contains e.path))
          else fs) fs
        = fs.filter (survivesAll N entries ks) := by
  intro ks
  induction ks with
  | nil =>
    intro fs
    rw [List.foldl_nil]
    symm
    apply List.filter_eq_self.mpr
    intro a _
    simp [survivesAll]
  | cons k ks ih =>
    intro fs
    rw [List.foldl_cons, prune_step_eq_filter, ih, List.filter_filter]
    apply List.filter_congr
    intro e _
    simp [survivesAll, List.all_cons, Bool.and_comm]

theorem remove_repetitive_images_eq_filter (N : Nat) (entries : List MediaEntry) :
    remove_repetitive_images N entries =
      entries.filter (survivesAll N entries (fileHashKeys entries)) := by
  unfold remove_repetitive_images
  exact prune_foldl_eq_filter N entries (fileHashKeys entries) entries

theorem mem_insertKey_self (ks : List String) (k : String) : k ∈ insertKey ks k := by
  unfold insertKey
  split
  · next h => exact List.elem_iff.mp h
  · next h => exact List.mem_append_right ks (List.mem_singleton.mpr rfl)

theorem mem_insertKey_of_mem {ks : List String} {x : String} (k : String)
    (h : x ∈ ks) : x ∈ insertKey ks k := by
  unfold insertKey
  split
  · exact h
  · exact List.mem_append_left _ h

theorem mem_fileHashKeys_aux (e : MediaEntry) :
    ∀ (l : List MediaEntry) (acc : List String),
      ((e ∈ l ∧ e.isFile = true) ∨ e.hash ∈ acc) →
      e.hash ∈ l.foldl
        (fun ks x => if x.isFile then insertKey ks x.hash else ks) acc := by
  intro l
  induction l with
  | nil =>
    intro acc h
    rcases h with ⟨hmem, _⟩ | hacc
    · exact absurd hmem (List.not_mem_nil e)
    · simpa using hacc
  | cons a l ih =>
    intro acc h
    rw [List.foldl_cons]
    apply ih
    rcases h with ⟨hmem, hf⟩ | hacc
    · rcases List.mem_cons.mp hmem with rfl | hmem2
      · right
        simp [hf]
        exact mem_insertKey_self acc e.hash
      · exact Or.inl ⟨hmem2, hf⟩
    · right
      by_cases haf : a.isFile = true
      · simp [haf]
        exact mem_insertKey_of_mem a.hash hacc
      · rw [Bool.not_eq_true] at haf
        simp [haf]
        exact hacc

theorem mem_fileHashKeys {entries : List MediaEntry} {e : MediaEntry}
    (hmem : e ∈ entries) (hf : e.isFile = true) :
    e.hash ∈ fileHashKeys entries :=
  mem_fileHashKeys_aux e entries [] (Or.inl ⟨hmem, hf⟩)

theorem path_mem_groupPaths {entries : List MediaEntry} {e : MediaEntry}
    (hmem : e ∈ entries) (hf : e.isFile = true) :
    e.path ∈ groupPaths entries e.hash := by
  unfold groupPaths
  refine List.mem_map.mpr ⟨e, ?_, rfl⟩
  simp [List.mem_filter, hmem, hf]

theorem of_mem_groupPaths {entries : List MediaEntry} {h p : String}
    (hp : p ∈ groupPaths entries h) :
    ∃ e ∈ entries, e.isFile = true ∧ e.hash = h ∧ e.path = p := by
  unfold groupPaths at hp
  obtain ⟨e, he, rfl⟩ := List.mem_map.mp hp
  obtain ⟨hmem, hcond⟩ := List.mem_filter.mp he
  simp at hcond
  exact ⟨e, hmem, hcond.1, hcond.2, rfl⟩

/-- Claim C4: remove_repetitive_images deletes exactly the regular files whose
content-hash group size strictly exceeds 0.8 times the slide count (in exact
arithmetic, five times the count exceeds four times the slide count), and with
them the whole group: a listing entry is deleted iff it is such a file. The
hypothesis that the listed paths are distinct reflects that a directory
listing holds each name once. -/
theorem remove_repetitive_images_deletes_iff (N : Nat)
    (entries : List MediaEntry) (e : MediaEntry)
    (hnd : (entries.map MediaEntry.path).Nodup) (hmem : e ∈ entries) :
    e ∉ remove_repetitive_images N entries ↔
      e.isFile = true ∧ 4 * N < 5 * hashCount entries e.hash := by
  rw [remove_repetitive_images_eq_filter]
  constructor
  · intro hnot
    by_cases hs : survivesAll N entries (fileHashKeys entries) e = true
    · exact absurd (List.mem_filter.mpr ⟨hmem, hs⟩) hnot
    · rw [Bool.not_eq_true] at hs
      unfold survivesAll at hs
      rw [List.all_eq_false] at hs
      obtain ⟨h, _, hpred⟩ := hs
      simp [overThreshold] at hpred
      obtain ⟨hov, hcont⟩ := hpred
      obtain ⟨e2, he2, hf2, hh2, hp2⟩ := of_mem_groupPaths hcont
      have he2e : e2 = e := List.inj_on_of_nodup_map hnd he2 hmem hp2
      subst he2e
      subst hh2
      exact ⟨hf2, hov⟩
  · rintro ⟨hf, hov⟩ hcontra
    have hs := (List.mem_filter.mp hcontra).2
    unfold survivesAll at hs
    rw [List.all_eq_true] at hs
    have h2 := hs e.hash (mem_fileHashKeys hmem hf)
    simp [overThreshold, hov] at h2
    exact h2 (path_mem_groupPaths hmem hf)

/-- Witness for C4: ten slides, one hash on nine files and another on two: the
nine-copy file is deleted, the two-copy file is kept. -/
theorem remove_repetitive_images_deletes_iff_witness :
    demoA1 ∉ remove_repetitive_images 10 demoMedia ∧
      demoB1 ∈ remove_repetitive_images 10 demoMedia := by
  constructor
  · exact (remove_repetitive_images_deletes_iff 10 demoMedia demoA1
      (by decide) (by decide)).mpr (by decide)
  · by_contra hn
    exact absurd ((remove_repetitive_images_deletes_iff 10 demoMedia demoB1
      (by decide) (by decide)).mp hn) (by decide)

/-- Claim C5 counterexample: with a zero slide count the threshold is zero and
a single regular media file is deleted, so the claimed no-pruning behaviour is
false on the code. -/
theorem prune_zero_slides_counterexample :
    demoLoneFile ∉ remove_repetitive_images 0 [demoLoneFile] := by decide

/-- Claim C5 amended: with a zero slide count every regular file of the media
directory is deleted, since every nonempty hash group exceeds the zero
threshold. -/
theorem prune_zero_slides_deletes_all (entries : List MediaEntry)
    (e : MediaEntry) (hmem : e ∈ entries) (hf : e.isFile = true) :
    e ∉ remove_repetitive_images 0 entries := by
  rw [remove_repetitive_images_eq_filter]
  intro hcontra
  have hs := (List.mem_filter.mp hcontra).2
  unfold survivesAll at hs
  rw [List.all_eq_true] at hs
  have h2 := hs e.hash (mem_fileHashKeys hmem hf)
  have hpos : 0 < hashCount entries e.hash :=
    List.length_pos_of_mem (path_mem_groupPaths hmem hf)
  simp [overThreshold] at h2
  rcases h2 with h2 | h2
  · omega
  · exact h2 (path_mem_groupPaths hmem hf)

/-- Witness for C5 on a two-file media directory. -/
theorem prune_zero_slides_deletes_all_witness :
    demoLoneFile2 ∉ remove_repetitive_images 0 [demoLoneFile2, demoLoneFile] :=
  prune_zero_slides_deletes_all [demoLoneFile2, demoLoneFile] demoLoneFile2
    (by decide) rfl

theorem modify_font_shape_group (fontName : String) (fontSize spacing : Nat)
    (changeSize : Bool) (ss : List Shape) :
    modify_font_shape fontName fontSize spacing changeSize (Shape.group ss) =
      Shape.group (ss.map (modify_font_shape fontName fontSize spacing changeSize)) := by
  rw [modify_font_shape, map_attach_eq]

theorem modify_spacing_shape_group (v : ℚ) (ss : List Shape) :
    modify_spacing_shape v (Shape.group ss) =
      Shape.group (ss.map (modify_spacing_shape v)) := by
  rw [modify_spacing_shape, map_attach_eq]

theorem runsOfShape_group (ss : List Shape) :
    runsOfShape (Shape.group ss) = (ss.map runsOfShape).flatten := by
  rw [runsOfShape, map_attach_eq]

theorem sizeOf_lt_of_mem_group {x : Shape} {ss : List Shape} (hx : x ∈ ss) :
    sizeOf x < sizeOf (Shape.group ss) := by
  have := List.sizeOf_lt_of_mem hx
  simp only [Shape.group.sizeOf_spec]
  omega

theorem runsOf_modify_font_aux (fontName : String) (fontSize spacing : Nat)
    (changeSize : Bool) :
    ∀ (n : Nat) (s : Shape), sizeOf s ≤ n →
      runsOfShape (modify_font_shape fontName fontSize spacing changeSize s) =
        (runsOfShape s).map (styleRunFont fontName fontSize spacing changeSize) := by
  intro n
  induction n using Nat.strong_induction_on with
  | _ n ih =>
    intro s hs
    cases s with
    | textFrame ps =>
      simp [modify_font_shape, runsOfShape, styleParaFont, List.map_flatten,
        List.map_map, Function.comp_def]
    | table rows =>
      simp [modify_font_shape, runsOfShape, styleParaFont, List.map_flatten,
        List.map_map, Function.comp_def]
    | group ss =>
      rw [modify_font_shape_group, runsOfShape_group, runsOfShape_group,
        List.map_map, List.map_flatten, List.map_map]
      congr 1
      apply List.map_congr_left
      intro x hx
      have hlt : sizeOf x < n := lt_of_lt_of_le (sizeOf_lt_of_mem_group hx) hs
      exact ih (sizeOf x) hlt x le_rfl
    | other t => simp [modify_font_shape, runsOfShape]

theorem runsOf_modify_font (fontName : String) (fontSize spacing : Nat)
    (changeSize : Bool) (s : Shape) :
    runsOfShape (modify_font_shape fontName fontSize spacing changeSize s) =
      (runsOfShape s).map (styleRunFont fontName fontSize spacing changeSize) :=
  runsOf_modify_font_aux fontName fontSize spacing changeSize (sizeOf s) s le_rfl

/-- Claim C8: after the font pass, every text run in any text frame or table
cell (at any group nesting depth) has black color, italic forced off, and the
configured letter spacing; the size is set to the configured value exactly
when the interactive confirmation was answered yes. The first conjunct records
the run-for-run correspondence with styleRunFont, which leaves the size at its
original value when the answer was no. -/
theorem modify_font_normalizes_runs (fontName : String) (fontSize spacing : Nat)
    (changeSize : Bool) (s : Shape) :
    runsOfShape (modify_font_shape fontName fontSize spacing changeSize s) =
      (runsOfShape s).map (styleRunFont fontName fontSize spacing changeSize) ∧
    ∀ r ∈ runsOfShape (modify_font_shape fontName fontSize spacing changeSize s),
      r.color = some (0, 0, 0) ∧ r.italic = some false ∧
      r.space = some spacing ∧ (changeSize = true → r.size = some fontSize) := by
  refine ⟨runsOf_modify_font fontName fontSize spacing changeSize s, ?_⟩
  intro r hr
  rw [runsOf_modify_font] at hr
  obtain ⟨r0, _, rfl⟩ := List.mem_map.mp hr
  refine ⟨rfl, rfl, rfl, ?_⟩
  intro hcs
  simp [styleRunFont, hcs]

/-- Witness for C8 on a run with adversarial original formatting. -/
theorem modify_font_normalizes_runs_witness :
    (styleRunFont "Arial" 14 50 true demoRun).color = some (0, 0, 0) ∧
    (styleRunFont "Arial" 14 50 true demoRun).italic = some false ∧
    (styleRunFont "Arial" 14 50 true demoRun).space = some 50 ∧
    (true = true → (styleRunFont "Arial" 14 50 true demoRun).size = some 14) :=
  (modify_font_normalizes_runs "Arial" 14 50 true demoTFShape).2
    (styleRunFont "Arial" 14 50 true demoRun)
    (by simp [demoTFShape, modify_font_shape, runsOfShape, styleParaFont])

/-- Claim C9: both style traversals leave every shape whose kind is outside
text frame, table and group unchanged wherever it occurs, descending through
arbitrarily nested groups rather than styling the group itself: such a shape
is a fixed point of both passes and its occurrence survives both passes. -/
theorem style_passes_preserve_other_shapes (fontName : String)
    (fontSize spacing : Nat) (changeSize : Bool) (v : ℚ) (t s : Shape)
    (hsub : SubShape t s) (hother : isOtherShape t = true) :
    modify_font_shape fontName fontSize spacing changeSize t = t ∧
    modify_spacing_shape v t = t ∧
    SubShape t (modify_font_shape fontName fontSize spacing changeSize s) ∧
    SubShape t (modify_spacing_shape v s) := by
  have hft : ∀ u : Shape, isOtherShape u = true →
      modify_font_shape fontName fontSize spacing changeSize u = u := by
    intro u hu
    cases u with
    | other m => simp [modify_font_shape]
    | textFrame ps => simp [isOtherShape] at hu
    | table rows => simp [isOtherShape] at hu
    | group ss => simp [isOtherShape] at hu
  have hspt : ∀ u : Shape, isOtherShape u = true →
      modify_spacing_shape v u = u := by
    intro u hu
    cases u with
    | other m => simp [modify_spacing_shape]
    | textFrame ps => simp [isOtherShape] at hu
    | table rows => simp [isOtherShape] at hu
    | group ss => simp [isOtherShape] at hu
  induction hsub with
  | refl =>
    refine ⟨hft t hother, hspt t hother, ?_, ?_⟩
    · rw [hft t hother]; exact SubShape.refl t
    · rw [hspt t hother]; exact SubShape.refl t
  | group hmem hsub2 ih =>
    obtain ⟨ih1, ih2, ih3, ih4⟩ := ih
    refine ⟨ih1, ih2, ?_, ?_⟩
    · rw [modify_font_shape_group]
      exact SubShape.group (List.mem_map_of_mem _ hmem) ih3
    · rw [modify_spacing_shape_group]
      exact SubShape.group (List.mem_map_of_mem _ hmem) ih4

/-- Witness for C9: a picture-like shape nested two groups deep is untouched
by both passes. -/
theorem style_passes_preserve_other_shapes_witness :
    modify_font_shape "Arial" 14 50 true demoOtherShape = demoOtherShape ∧
    modify_spacing_shape (6 / 5 : ℚ) demoOtherShape = demoOtherShape ∧
    SubShape demoOtherShape
      (modify_font_shape "Arial" 14 50 true demoNestedGroup) ∧
    SubShape demoOtherShape (modify_spacing_shape (6 / 5 : ℚ) demoNestedGroup) :=
  style_passes_preserve_other_shapes "Arial" 14 50 true (6 / 5) demoOtherShape
    demoNestedGroup
    (SubShape.group (List.mem_cons_self _ _)
      (SubShape.group (List.mem_singleton.mpr rfl) (SubShape.refl demoOtherShape)))
    rfl

end PPTXGenAI
